import Mathlib

/-!
Verification of the theme-based relatedness and caching engine of the
obsidian-diary-mcp repository (`src/obsidian_diary_mcp/analysis.py` and
`src/obsidian_diary_mcp/entry_manager.py`).

Shallow embedding conventions:
* The Ollama text-generation backend is modelled as an oracle
  `Gen := Nat → Option String`: the value of the oracle at `k` is the outcome of
  the `k`-th `ollama_client.generate` call of the process (`none` models a raised
  exception — timeout, transport error, etc.; `some r` models response text `r`).
* Python's per-process randomized string hash (`hash(content[:100])` in
  `get_themes_cached`) is modelled as an unspecified parameter
  `pyHash : String → Int`.
* The mutable fields of the `AnalysisEngine` object and the instrumentation used
  to state frame/effect claims live in `EngineState`: the `_theme_cache` dict
  (as an association list, insertion at the head shadows, matching dict update
  for a key that is not present), plus call counters for the extractor, the
  backend, `EntryManager.get_all_entries` and `EntryManager.read_entry`.
* The diary directory is a list of `MDFile` (file name plus the text that
  `read_entry` returns for it; a read failure is, exactly as in the source, the
  sentinel text starting with "Error reading file").
* Jaccard similarity is computed in `ℚ` instead of Python floats.  All
  similarity values reachable in the program are ratios `i/u` with `u ≤ 10`
  (theme lists are capped at 5); for these, IEEE double division is exact enough
  that comparisons against each other and against the literal `0.08` agree with
  the exact rational comparisons, so the `ℚ` model is faithful.
-/

/-- Whitespace test used for the `\s` character class of the regexes in
`analysis.py` (space, tab, carriage return, newline). -/
def isWs (c : Char) : Bool := c.isWhitespace

/-- Python `str.lower()` (character-wise case mapping). -/
def pyLower (s : String) : String := ⟨s.data.map Char.toLower⟩

/-- Python `str.strip()`: remove leading and trailing whitespace. -/
def pyStrip (s : String) : String :=
  ⟨((s.data.dropWhile isWs).reverse.dropWhile isWs).reverse⟩

/-- Python `str.split(sep)` for a single-character separator, on character
lists: every separator occurrence starts a new chunk. -/
def splitCharList (sep : Char) : List Char → List (List Char)
  | [] => [[]]
  | c :: cs =>
    if c = sep then [] :: splitCharList sep cs
    else
      match splitCharList sep cs with
      | [] => [[c]]
      | h :: t => (c :: h) :: t

/-- Python `str.split(sep)` for a single-character separator (the source
only ever splits on `","`, `"\n"` and, inside `strptime`, `"-"`). -/
def pySplitOn (sep : Char) (s : String) : List String :=
  (splitCharList sep s.data).map String.mk

/-- Python `str.startswith(pre)`. -/
def pyStartsWith (s pre : String) : Bool := List.isPrefixOf pre.data s.data

/-- Python `str.endswith(post)`. -/
def pyEndsWith (s post : String) : Bool :=
  List.isPrefixOf post.data.reverse s.data.reverse

/-- Python slicing `s[:n]`. -/
def pyTake (n : Nat) (s : String) : String := ⟨s.data.take n⟩

/-- Python slicing `s[:-n]` (`Path.stem` for a name with an `n-1`-character
suffix). -/
def pyDropRight (n : Nat) (s : String) : String :=
  ⟨s.data.take (s.data.length - n)⟩

/-- Longest-prefix removal for a character class (the `re.sub(r"^[...]+", "",
line)` idiom). -/
def pyDropWhile (p : Char → Bool) (s : String) : String := ⟨s.data.dropWhile p⟩

/-- Numeric value of a decimal digit character. -/
def digitVal (c : Char) : Nat := c.toNat - '0'.toNat

/-- Value of a decimal digit string, most significant digit first. -/
def valOfDigits (l : List Char) : Nat :=
  l.foldl (fun a c => a * 10 + digitVal c) 0

/-- `int(s)` restricted to non-empty all-digit strings, `none` otherwise (the
digit shape is what the `strptime` format regex admits). -/
def pyToNat? (s : String) : Option Nat :=
  if s.data ≠ [] && s.data.all Char.isDigit then some (valOfDigits s.data)
  else none

/-- Left-to-right non-overlapping removal of every occurrence of a non-empty
literal.  The fuel argument (instantiated with the list length, which each
step strictly exceeds the consumption of) keeps the recursion structural so
that the kernel can evaluate it. -/
def removeLitFuel (lit : List Char) : Nat → List Char → List Char
  | 0, l => l
  | _, [] => []
  | fuel + 1, c :: cs =>
    if List.isPrefixOf lit (c :: cs) then
      removeLitFuel lit fuel ((c :: cs).drop lit.length)
    else c :: removeLitFuel lit fuel cs

/-- `re.sub` of a fixed literal pattern by the empty string (all
occurrences), as used for the Brain Dump placeholder text. -/
def pyRemoveAll (s lit : String) : String :=
  ⟨removeLitFuel lit.data s.data.length s.data⟩

/-- `takeUntilSection l` is the lazy capture group `(.*?)(?=\n##|\Z)` of the
Brain Dump regex: everything up to (excluding) the first newline that is
immediately followed by `##`, or the whole list if there is none. -/
def takeUntilSection : List Char → List Char
  | [] => []
  | c :: cs =>
    if c = '\n' && List.isPrefixOf "##".data cs then []
    else c :: takeUntilSection cs

/-- One attempt, at the head of `l`, to match the regex
`##\s*(?:💭\s*)?Brain Dump\s*\n+(.*?)(?=\n##|\Z)` (DOTALL, IGNORECASE) from
`AnalysisEngine._extract_brain_dump`.  Returns the capture group on success.
The `\s*` runs are deterministic maximal munch (neither `💭` nor `B`/`b` is
whitespace); `\s*\n+` consumes the maximal whitespace run up to and including
its last newline and fails if the run has no newline. -/
def bdMatch (l : List Char) : Option (List Char) :=
  match l with
  | '#' :: '#' :: cs =>
    let cs1 := cs.dropWhile isWs
    let cs2 := match cs1 with
      | '💭' :: r => r.dropWhile isWs
      | _ => cs1
    if (cs2.take 10).map Char.toLower = "brain dump".data then
      let rest := cs2.drop 10
      let run := rest.takeWhile isWs
      let tl := rest.dropWhile isWs
      if run.contains '\n' then
        let wsAfter := (run.reverse.takeWhile (fun c => c ≠ '\n')).reverse
        some (takeUntilSection (wsAfter ++ tl))
      else none
    else none
  | _ => none

/-- `re.search` for the Brain Dump regex: try every start position from the
left, first hit wins. -/
def bdSearch : List Char → Option (List Char)
  | [] => none
  | c :: cs =>
    match bdMatch (c :: cs) with
    | some cap => some cap
    | none => bdSearch cs

/-- `AnalysisEngine._extract_brain_dump`: locate the Brain Dump section, strip
it, remove the placeholder text (a literal, all occurrences), strip again.
Returns `""` when the section is absent. -/
def extract_brain_dump (content : String) : String :=
  match bdSearch content.data with
  | some cap =>
    pyStrip (pyRemoveAll (pyStrip (String.mk cap))
      "*Your thoughts, experiences, and observations...*")
  | none => ""

/-- Truncation at the first occurrence of a literal: models
`re.sub(r"<literal>.*$", "", s, flags=re.DOTALL)` for a fixed literal pattern,
used for the `**Related entries:**` fallback cleanup. -/
def truncAtLit (lit : List Char) : List Char → List Char
  | [] => []
  | c :: cs =>
    if List.isPrefixOf lit (c :: cs) then []
    else c :: truncAtLit lit cs

/-- Does `##\s*🔗\s*Memory Links` match at the head of `l`? -/
def mlMatchAt (l : List Char) : Bool :=
  match l with
  | '#' :: '#' :: cs =>
    match cs.dropWhile isWs with
    | '🔗' :: r => List.isPrefixOf "Memory Links".data (r.dropWhile isWs)
    | _ => false
  | _ => false

/-- Truncation at the first match of the Memory Links header regex: models
`re.sub(r"##\s*🔗\s*Memory Links.*$", "", s, flags=re.DOTALL)`. -/
def truncAtML : List Char → List Char
  | [] => []
  | c :: cs => if mlMatchAt (c :: cs) then [] else c :: truncAtML cs

/-- The `analysis_content` selection at the top of
`AnalysisEngine.extract_themes_and_topics`: prefer a substantial
(> 50 chars) Brain Dump section, else the full content with any trailing
`**Related entries:**` and `## 🔗 Memory Links` sections removed. -/
def selectAnalysisContent (content : String) : String :=
  let brain_dump := extract_brain_dump content
  if brain_dump.length > 50 then brain_dump
  else String.mk (truncAtML (truncAtLit "**Related entries:**".data content.data))

/-- Response post-processing of `extract_themes_and_topics` (lines 78-83 of
`analysis.py`): split the stripped response on commas, keep tokens that are
non-blank, strip and lowercase each, truncate to 5. -/
def parseThemes (response_text : String) : List String :=
  (((pySplitOn ',' (pyStrip response_text)).filter
      (fun t => pyStrip t ≠ "")).map
    (fun t => pyLower (pyStrip t))).take 5

/-- Outcome stream of the generation backend: `gen k` is the result of the
`k`-th `ollama_client.generate` call (`none` = the call raised). -/
def Gen : Type := Nat → Option String

/-- Mutable state of the analysis engine plus effect instrumentation. -/
structure EngineState where
  /-- `AnalysisEngine._theme_cache`, as an association list. -/
  theme_cache : List (String × List String)
  /-- number of `ollama_client.generate` calls so far -/
  genCalls : Nat
  /-- number of `extract_themes_and_topics` invocations so far -/
  extractCalls : Nat
  /-- number of `EntryManager.get_all_entries` invocations so far -/
  listCalls : Nat
  /-- number of `EntryManager.read_entry` invocations so far -/
  readCalls : Nat
deriving Repr, DecidableEq

/-- Fresh engine state at process start. -/
def initState : EngineState := ⟨[], 0, 0, 0, 0⟩

/-- `AnalysisEngine.extract_themes_and_topics`.  Selects the analysis content,
short-circuits to `[]` when its stripped length is below 20 (no backend call),
otherwise performs one backend call; a raised backend call is absorbed into
`[]`, a response is parsed by `parseThemes`. -/
def extract_themes_and_topics (gen : Gen) (content : String) (st : EngineState) :
    List String × EngineState :=
  let analysis_content := selectAnalysisContent content
  let st1 : EngineState := { st with extractCalls := st.extractCalls + 1 }
  if (pyStrip analysis_content).length < 20 then ([], st1)
  else
    match gen st.genCalls with
    | none => ([], { st1 with genCalls := st1.genCalls + 1 })
    | some response_text =>
      (parseThemes response_text, { st1 with genCalls := st1.genCalls + 1 })

/-- The cache fingerprint of `AnalysisEngine.get_themes_cached`:
`f"{file_stem}_{len(content)}_{hash(content[:100])}"`. -/
def cacheKey (pyHash : String → Int) (content : String) (file_stem : String) :
    String :=
  file_stem ++ "_" ++ Nat.repr content.length ++ "_" ++
    Int.repr (pyHash (pyTake 100 content))

/-- `AnalysisEngine.get_themes_cached`: return the cached theme list for the
fingerprint if present, else invoke the extractor and store its result (even if
empty). -/
def get_themes_cached (gen : Gen) (pyHash : String → Int)
    (content file_stem : String) (st : EngineState) :
    List String × EngineState :=
  let key := cacheKey pyHash content file_stem
  match st.theme_cache.lookup key with
  | some themes => (themes, st)
  | none =>
    let r := extract_themes_and_topics gen content st
    (r.1, { r.2 with theme_cache := (key, r.1) :: r.2.theme_cache })

/-- A file of the diary directory: its name and the text `read_entry` returns
for it (the source signals a read failure by returning sentinel text that
starts with "Error reading file", so failures are part of `content`). -/
structure MDFile where
  name : String
  content : String
deriving Repr, DecidableEq

/-- A calendar date as produced by `datetime.strptime(stem, "%Y-%m-%d")`. -/
structure PyDate where
  year : Nat
  month : Nat
  day : Nat
deriving Repr, DecidableEq

/-- `datetime` objects with zero time compare lexicographically on
(year, month, day). -/
def dateKey (d : PyDate) : Lex (Nat × Lex (Nat × Nat)) :=
  toLex (d.year, toLex (d.month, d.day))

instance : LinearOrder PyDate :=
  LinearOrder.lift' dateKey (by
    intro a b h
    cases a; cases b
    simp only [dateKey, toLex_inj, Prod.mk.injEq] at h
    simp_all)

/-- Gregorian leap year, as implemented by `datetime`. -/
def isLeap (y : Nat) : Bool := y % 4 = 0 && (y % 100 ≠ 0 || y % 400 = 0)

/-- Days in a month, as validated by the `datetime` constructor. -/
def daysInMonth (y m : Nat) : Nat :=
  if m = 2 then (if isLeap y then 29 else 28)
  else if m = 4 || m = 6 || m = 9 || m = 11 then 30
  else 31

/-- `datetime.strptime(s, "%Y-%m-%d")` as a partial function: `%Y` is exactly
four digits, `%m` and `%d` are one or two digits, month in 1..12, day in
1..31 at the lexical level, and the `datetime` constructor then requires
year ≥ 1 and day ≤ days-in-month (a `ValueError` on any violation, i.e.
`none` here). -/
def parseDate (s : String) : Option PyDate :=
  match pySplitOn '-' s with
  | [ys, ms, ds] =>
    match pyToNat? ys, pyToNat? ms, pyToNat? ds with
    | some y, some m, some d =>
      if ys.length = 4 && 1 ≤ y && (ms.length = 1 || ms.length = 2) &&
          1 ≤ m && m ≤ 12 && (ds.length = 1 || ds.length = 2) &&
          1 ≤ d && d ≤ daysInMonth y m then
        some ⟨y, m, d⟩
      else none
    | _, _, _ => none
  | _ => none

/-- `Path.stem` for a name ending in the `.md` suffix. -/
def stemOf (name : String) : String := pyDropRight 3 name

/-- Stable descending insertion by a key: `x` is placed after every existing
element with a strictly greater key and before the first element whose key is
less than or equal to its own. -/
def insertDescBy {α β : Type} [LinearOrder β] (key : α → β) (x : α) :
    List α → List α
  | [] => [x]
  | y :: ys =>
    if key x < key y then y :: insertDescBy key x ys else x :: y :: ys

/-- Stable descending sort by a key.  This models Python's
`sorted(l, key=..., reverse=True)` / `list.sort(key=..., reverse=True)`:
Timsort is stable and `reverse=True` flips comparisons while preserving the
original order of elements with equal keys, which determines the output
uniquely — any stable descending sort is the same function. -/
def sortDescBy {α β : Type} [LinearOrder β] (key : α → β) : List α → List α
  | [] => []
  | x :: xs => insertDescBy key x (sortDescBy key xs)

/-- `EntryManager.get_all_entries`: glob `*.md` over the diary directory
(modelled: the files of `fs` whose name ends in `.md`, in directory order),
skip names starting with a dot, keep files whose stem `strptime`-parses as a
`%Y-%m-%d` date, and sort by date, newest first (`sorted(..., key=lambda x:
x[0], reverse=True)`, a stable descending sort).  `globEntry` is the
per-file part of the loop body: the glob filter, the dot-file skip and the
`strptime` parse. -/
def globEntry (f : MDFile) : Option (PyDate × MDFile) :=
  if pyEndsWith f.name ".md" then
    if pyStartsWith f.name "." then none
    else
      match parseDate (stemOf f.name) with
      | some d => some (d, f)
      | none => none
  else none

def get_all_entries (fs : List MDFile) : List (PyDate × MDFile) :=
  sortDescBy (fun p => p.1) (fs.filterMap globEntry)

/-- Python truthiness of the `exclude_date: Optional[str]` argument
(`None` and `""` are falsy). -/
def pyTruthy : Option String → Bool
  | none => false
  | some s => s ≠ ""

/-- `exclude_date or "current"`. -/
def pyOrCurrent : Option String → String
  | none => "current"
  | some s => if s = "" then "current" else s

/-- The skip test `if exclude_date and file_path.stem == exclude_date`. -/
def isExcluded (exclude_date : Option String) (stem : String) : Bool :=
  match exclude_date with
  | none => false
  | some e => e ≠ "" && stem = e

/-- The similarity threshold `0.08` of `find_related_entries`, as an exact
rational. -/
def simThreshold : ℚ := 8 / 100

/-- The corpus loop of `AnalysisEngine.find_related_entries` (lines 140-167):
for each enumerated entry, skip it when its stem equals a truthy
`exclude_date`; otherwise read it (one `read_entry` call), skip it when the
read returned the error sentinel; otherwise fetch its themes through the
cache, and when the theme set is non-empty and the Jaccard similarity with
`current_themes` strictly exceeds the threshold, append
`(similarity, stem)` to the score list. -/
def scanEntries (gen : Gen) (pyHash : String → Int)
    (current_themes : Finset String) (exclude_date : Option String) :
    List (PyDate × MDFile) → EngineState → List (ℚ × String) × EngineState
  | [], st => ([], st)
  | (_, f) :: rest, st =>
    if isExcluded exclude_date (stemOf f.name) then
      scanEntries gen pyHash current_themes exclude_date rest st
    else
      let st1 : EngineState := { st with readCalls := st.readCalls + 1 }
      let entry_content := f.content
      if pyStartsWith entry_content "Error reading file" then
        scanEntries gen pyHash current_themes exclude_date rest st1
      else
        let r := get_themes_cached gen pyHash entry_content (stemOf f.name) st1
        let entry_themes := r.1.toFinset
        if entry_themes ≠ ∅ then
          let similarity : ℚ :=
            ((current_themes ∩ entry_themes).card : ℚ) /
              ((current_themes ∪ entry_themes).card : ℚ)
          if simThreshold < similarity then
            let r2 := scanEntries gen pyHash current_themes exclude_date rest r.2
            ((similarity, stemOf f.name) :: r2.1, r2.2)
          else scanEntries gen pyHash current_themes exclude_date rest r.2
        else scanEntries gen pyHash current_themes exclude_date rest r.2

/-- `AnalysisEngine.find_related_entries`: themes of the current content via
the cache (keyed by `exclude_date or "current"`), empty-theme short circuit,
corpus enumeration via `get_all_entries` (one `get_all_entries` call), the
scan loop, a stable descending sort of the scores, truncation to
`max_related` and formatting as `[[stem]]` backlinks. -/
def find_related_entries (gen : Gen) (pyHash : String → Int) (fs : List MDFile)
    (current_content : String) (exclude_date : Option String)
    (max_related : Nat := 6) (st : EngineState := initState) :
    List String × EngineState :=
  let r := get_themes_cached gen pyHash current_content
    (pyOrCurrent exclude_date) st
  let current_themes := r.1.toFinset
  if current_themes = ∅ then ([], r.2)
  else
    let st1 : EngineState := { r.2 with listCalls := r.2.listCalls + 1 }
    let entries := get_all_entries fs
    let sc := scanEntries gen pyHash current_themes exclude_date entries st1
    let sorted := sortDescBy (fun p => p.1) sc.1
    ((sorted.take max_related).map (fun p => "[[" ++ p.2 ++ "]]"), sc.2)

/-- Substring containment test (Python's `pat in s`). -/
def containsSub (s pat : List Char) : Bool :=
  match s with
  | [] => List.isPrefixOf pat []
  | _ :: cs => List.isPrefixOf pat s || containsSub cs pat

/-- `strContains s pat` is Python's `pat in s`. -/
def strContains (s pat : String) : Bool := containsSub s.data pat.data

/-- Scan for the first occurrence of `</think>` and return everything after
it, or `none` when it does not occur. -/
def afterClose : List Char → Option (List Char)
  | [] => none
  | c :: cs =>
    if List.isPrefixOf "</think>".data (c :: cs) then some (cs.drop 7)
    else afterClose cs

/-- One left-to-right pass of `re.sub(r'<think>.*?</think>', '', s, DOTALL)`:
at each position, remove from a `<think>` to the nearest following
`</think>`; a `<think>` with no closing tag after it cannot be part of a
match (and then no later pair match exists either), so the remainder is kept
verbatim.  The fuel argument (instantiated with the list length, which
bounds the number of steps since every step consumes at least one character)
keeps the recursion structural so that the kernel can evaluate it. -/
def scrubPairsFuel : Nat → List Char → List Char
  | 0, l => l
  | _, [] => []
  | fuel + 1, c :: cs =>
    if List.isPrefixOf "<think>".data (c :: cs) then
      match afterClose (cs.drop 6) with
      | some rest => scrubPairsFuel fuel rest
      | none => c :: cs
    else c :: scrubPairsFuel fuel cs

def scrubPairs (l : List Char) : List Char := scrubPairsFuel l.length l

/-- One left-to-right pass of `re.sub(r'</?think>', '', s)`: drop every
occurrence of `<think>` or `</think>` (they cannot match at the same
position).  Fuel as in `scrubPairsFuel`. -/
def stripThinkTokensFuel : Nat → List Char → List Char
  | 0, l => l
  | _, [] => []
  | fuel + 1, c :: cs =>
    if List.isPrefixOf "<think>".data (c :: cs) then
      stripThinkTokensFuel fuel (cs.drop 6)
    else if List.isPrefixOf "</think>".data (c :: cs) then
      stripThinkTokensFuel fuel (cs.drop 7)
    else c :: stripThinkTokensFuel fuel cs

def stripThinkTokens (l : List Char) : List Char :=
  stripThinkTokensFuel l.length l

/-- The commentary/marker skip test of the prompt-parsing loop:
`any(skip in line.lower() for skip in [...])`. -/
def hasSkipMarker (lower_line : String) : Bool :=
  strContains lower_line "unresolved" || strContains lower_line "worth exploring" ||
  strContains lower_line "here are" || strContains lower_line "**" ||
  strContains lower_line "topics:" || strContains lower_line "questions:" ||
  strContains lower_line "<think>" || strContains lower_line "</think>"

/-- The character class `[\d\-\.\s]` of the list-marker stripping regex. -/
def isMarkerChar (c : Char) : Bool :=
  c.isDigit || c = '-' || c = '.' || c.isWhitespace

/-- The body of the prompt-parsing loop of
`AnalysisEngine.generate_reflection_prompts` (lines 250-263): strip the line,
skip it on a commentary marker, keep it when it starts with `1.`..`5.` or
`-`, strip the leading marker syntax, and append the remainder when it is
non-empty and ends with `?` or is longer than 20 characters. -/
def promptStep (acc : List String) (rawLine : String) : List String :=
  let line := pyStrip rawLine
  if hasSkipMarker (pyLower line) then acc
  else if line ≠ "" &&
      (pyStartsWith line "1." || pyStartsWith line "2." ||
        pyStartsWith line "3." || pyStartsWith line "4." ||
        pyStartsWith line "5." || pyStartsWith line "-") then
    let clean_prompt := pyStrip (pyDropWhile isMarkerChar line)
    if clean_prompt ≠ "" &&
        (pyEndsWith clean_prompt "?" || clean_prompt.length > 20) then
      acc ++ [clean_prompt]
    else acc
  else acc

/-- Declarative form of one iteration of the prompt-parsing loop: the prompt
kept for one raw response line, if any.  `promptStep acc l = acc ++
(promptOf l).toList` (proved below), so the loop is the `filterMap` of this
function. -/
def promptOf (rawLine : String) : Option String :=
  let line := pyStrip rawLine
  if hasSkipMarker (pyLower line) then none
  else if line ≠ "" &&
      (pyStartsWith line "1." || pyStartsWith line "2." ||
        pyStartsWith line "3." || pyStartsWith line "4." ||
        pyStartsWith line "5." || pyStartsWith line "-") then
    let clean_prompt := pyStrip (pyDropWhile isMarkerChar line)
    if clean_prompt ≠ "" &&
        (pyEndsWith clean_prompt "?" || clean_prompt.length > 20) then
      some clean_prompt
    else none
  else none

/-- `AnalysisEngine.generate_reflection_prompts`: short-circuit on content
below 20 stripped characters, one backend call (focus and weekly flags only
shape the prompt sent to the backend oracle, which the oracle model absorbs),
`[]` on backend failure, otherwise the chain-of-thought scrub, the
line-parsing loop and truncation to `count`. -/
def generate_reflection_prompts (gen : Gen) (recent_content : String)
    (focus : Option String) (count : Nat) (is_sunday : Bool) (st : EngineState) :
    List String × EngineState :=
  if (pyStrip recent_content).length < 20 then ([], st)
  else
    match gen st.genCalls with
    | none => ([], { st with genCalls := st.genCalls + 1 })
    | some raw =>
      let response_text := String.mk (stripThinkTokens (scrubPairs raw.data))
      let prompts := (pySplitOn '\n' response_text).foldl promptStep []
      (prompts.take count, { st with genCalls := st.genCalls + 1 })

/-- A sequence of `get_themes_cached` calls, each a (content, file_stem)
pair: the process-lifetime view of the Theme Cache used by every component
that fetches themes (the relatedness scan, the memory-trace report, the tool
surface). -/
def runCalls (gen : Gen) (pyHash : String → Int) :
    List (String × String) → EngineState → EngineState
  | [], st => st
  | (c, s) :: rest, st =>
    runCalls gen pyHash rest (get_themes_cached gen pyHash c s st).2

/-- The `similarity_scores` list variable of `find_related_entries`, as a
function of the inputs: the output of the corpus scan started from the state
reached after the current entry's themes were fetched and the corpus was
enumerated. -/
def similarity_scores (gen : Gen) (pyHash : String → Int) (fs : List MDFile)
    (current_content : String) (exclude_date : Option String)
    (st : EngineState) : List (ℚ × String) :=
  (scanEntries gen pyHash
    (get_themes_cached gen pyHash current_content
      (pyOrCurrent exclude_date) st).1.toFinset
    exclude_date (get_all_entries fs)
    { (get_themes_cached gen pyHash current_content
        (pyOrCurrent exclude_date) st).2 with
      listCalls := (get_themes_cached gen pyHash current_content
        (pyOrCurrent exclude_date) st).2.listCalls + 1 }).1

section SortLemmas

variable {α β : Type} [LinearOrder β] (key : α → β)

theorem insertDescBy_perm (x : α) (l : List α) :
    List.Perm (insertDescBy key x l) (x :: l) := by
  induction l with
  | nil => simp [insertDescBy]
  | cons y ys ih =>
    simp only [insertDescBy]
    split
    · exact ((ih.cons y).trans (List.Perm.swap x y ys))
    · exact List.Perm.refl _

theorem sortDescBy_perm (l : List α) : List.Perm (sortDescBy key l) l := by
  induction l with
  | nil => simp [sortDescBy]
  | cons x xs ih =>
    simp only [sortDescBy]
    exact (insertDescBy_perm key x (sortDescBy key xs)).trans (ih.cons x)


theorem insertDescBy_pairwise (x : α) (l : List α)
    (h : l.Pairwise (fun a b => key b ≤ key a)) :
    (insertDescBy key x l).Pairwise (fun a b => key b ≤ key a) := by
  induction l with
  | nil => simp [insertDescBy]
  | cons y ys ih =>
    simp only [insertDescBy]
    rw [List.pairwise_cons] at h
    split
    · rename_i hlt
      rw [List.pairwise_cons]
      constructor
      · intro z hz
        rcases List.mem_cons.mp ((insertDescBy_perm key x ys).mem_iff.mp hz)
          with hz | hz
        · subst hz; exact le_of_lt hlt
        · exact h.1 z hz
      · exact ih h.2
    · rename_i hge
      rw [List.pairwise_cons]
      constructor
      · intro z hz
        rcases List.mem_cons.mp hz with hz | hz
        · subst hz; exact le_of_not_lt hge
        · exact le_trans (h.1 z hz) (le_of_not_lt hge)
      · rw [List.pairwise_cons]; exact h

theorem sortDescBy_pairwise (l : List α) :
    (sortDescBy key l).Pairwise (fun a b => key b ≤ key a) := by
  induction l with
  | nil => simp [sortDescBy]
  | cons x xs ih =>
    simp only [sortDescBy]
    exact insertDescBy_pairwise key x _ ih

theorem insertDescBy_filter_key (x : α) (l : List α) (k : β) :
    (insertDescBy key x l).filter (fun a => decide (key a = k)) =
      if key x = k then x :: l.filter (fun a => decide (key a = k))
      else l.filter (fun a => decide (key a = k)) := by
  induction l with
  | nil => by_cases hxk : key x = k <;> simp [insertDescBy, hxk]
  | cons y ys ih =>
    simp only [insertDescBy]
    split
    · rename_i hlt
      by_cases hxk : key x = k
      · have hyk : ¬ key y = k := by
          intro hyk
          rw [hxk] at hlt
          rw [hyk] at hlt
          exact lt_irrefl k hlt
        simp [List.filter_cons, hyk, hxk, ih]
      · simp [List.filter_cons, hxk, ih]
    · by_cases hxk : key x = k <;> simp [List.filter_cons, hxk]

theorem sortDescBy_filter_key (l : List α) (k : β) :
    (sortDescBy key l).filter (fun a => decide (key a = k)) =
      l.filter (fun a => decide (key a = k)) := by
  induction l with
  | nil => simp [sortDescBy]
  | cons x xs ih =>
    simp only [sortDescBy, insertDescBy_filter_key, ih]
    by_cases hxk : key x = k <;> simp [hxk, List.filter_cons]

theorem insertDescBy_of_le (x : α) (S : List α)
    (hall : ∀ w ∈ S, key w ≤ key x) : insertDescBy key x S = x :: S := by
  cases S with
  | nil => simp [insertDescBy]
  | cons w ws =>
    have : ¬ key x < key w := not_lt.mpr (hall w (List.mem_cons_self _ _))
    simp [insertDescBy, this]

theorem insertDescBy_filter_bool (x : α) (l : List α) (q : α → Bool)
    (h : l.Pairwise (fun a b => key b ≤ key a)) :
    (insertDescBy key x l).filter q =
      if q x then insertDescBy key x (l.filter q) else l.filter q := by
  induction l with
  | nil => cases hq : q x <;> simp [insertDescBy, List.filter, hq]
  | cons y ys ih =>
    rw [List.pairwise_cons] at h
    have ihr := ih h.2
    simp only [insertDescBy]
    split
    · rename_i hlt
      cases hq : q x
      · cases hqy : q y <;> simp [List.filter_cons, hqy, hq, ihr]
      · cases hqy : q y
        · simp [List.filter_cons, hqy, hq, ihr]
        · simp only [List.filter_cons, hqy, hq, ihr, if_true]
          simp [insertDescBy, hlt]
    · rename_i hge
      cases hq : q x
      · simp [List.filter_cons, hq]
      · have hall : ∀ w ∈ (y :: ys).filter q, key w ≤ key x := by
          intro w hw
          have hwmem : w ∈ y :: ys := List.mem_of_mem_filter hw
          have hwle : key w ≤ key y := by
            rcases List.mem_cons.mp hwmem with hw2 | hw2
            · subst hw2; exact le_refl _
            · exact h.1 w hw2
          exact le_trans hwle (le_of_not_lt hge)
        rw [insertDescBy_of_le key x _ hall]
        simp [List.filter_cons, hq]

theorem sortDescBy_filter_bool (l : List α) (q : α → Bool) :
    sortDescBy key (l.filter q) = (sortDescBy key l).filter q := by
  induction l with
  | nil => simp [sortDescBy]
  | cons x xs ih =>
    simp only [List.filter_cons, sortDescBy]
    rw [insertDescBy_filter_bool key x _ q (sortDescBy_pairwise key xs), ← ih]
    cases hq : q x <;> simp [sortDescBy]

end SortLemmas

section EngineLemmas

/-- Effect footprint of one extractor invocation: the cache and the read/list
counters are untouched, the extractor counter is bumped by exactly one, the
backend counter by at most one. -/
theorem extract_effects (gen : Gen) (content : String) (st : EngineState) :
    (extract_themes_and_topics gen content st).2.theme_cache = st.theme_cache ∧
    (extract_themes_and_topics gen content st).2.extractCalls
      = st.extractCalls + 1 ∧
    st.genCalls ≤ (extract_themes_and_topics gen content st).2.genCalls ∧
    (extract_themes_and_topics gen content st).2.genCalls ≤ st.genCalls + 1 ∧
    (extract_themes_and_topics gen content st).2.readCalls = st.readCalls ∧
    (extract_themes_and_topics gen content st).2.listCalls = st.listCalls := by
  unfold extract_themes_and_topics
  by_cases hC : (pyStrip (selectAnalysisContent content)).length < 20
  · simp [hC]
  · cases hG : gen st.genCalls <;> simp [hC, hG]

/-- The extractor's result and its backend-counter evolution depend on the
incoming state only through the backend call counter. -/
theorem extract_congr (gen : Gen) (c : String) (st st' : EngineState)
    (hg : st.genCalls = st'.genCalls) :
    (extract_themes_and_topics gen c st).1
      = (extract_themes_and_topics gen c st').1 ∧
    (extract_themes_and_topics gen c st).2.genCalls
      = (extract_themes_and_topics gen c st').2.genCalls := by
  unfold extract_themes_and_topics
  rw [← hg]
  by_cases hC : (pyStrip (selectAnalysisContent c)).length < 20
  · simp [hC, hg]
  · cases hG : gen st.genCalls <;> simp [hC, hG, hg]

/-- Effect footprint of one cache access: read/list counters untouched, at most
one extractor invocation, at most one backend call. -/
theorem get_effects (gen : Gen) (pyHash : String → Int) (c s : String)
    (st : EngineState) :
    (get_themes_cached gen pyHash c s st).2.readCalls = st.readCalls ∧
    (get_themes_cached gen pyHash c s st).2.listCalls = st.listCalls ∧
    st.extractCalls ≤ (get_themes_cached gen pyHash c s st).2.extractCalls ∧
    (get_themes_cached gen pyHash c s st).2.extractCalls
      ≤ st.extractCalls + 1 ∧
    st.genCalls ≤ (get_themes_cached gen pyHash c s st).2.genCalls ∧
    (get_themes_cached gen pyHash c s st).2.genCalls ≤ st.genCalls + 1 := by
  cases hL : st.theme_cache.lookup (cacheKey pyHash c s) with
  | some t => simp [get_themes_cached, hL]
  | none =>
    have he := extract_effects gen c st
    simp only [get_themes_cached, hL]
    refine ⟨he.2.2.2.2.1, he.2.2.2.2.2, ?_, ?_, he.2.2.1, he.2.2.2.1⟩
    · rw [he.2.1]; omega
    · rw [he.2.1]

/-- The cache access's result, cache evolution and backend-counter evolution
depend on the incoming state only through the cache and the backend counter. -/
theorem get_congr (gen : Gen) (pyHash : String → Int) (c s : String)
    (st st' : EngineState) (hc : st.theme_cache = st'.theme_cache)
    (hg : st.genCalls = st'.genCalls) :
    (get_themes_cached gen pyHash c s st).1
      = (get_themes_cached gen pyHash c s st').1 ∧
    (get_themes_cached gen pyHash c s st).2.theme_cache
      = (get_themes_cached gen pyHash c s st').2.theme_cache ∧
    (get_themes_cached gen pyHash c s st).2.genCalls
      = (get_themes_cached gen pyHash c s st').2.genCalls := by
  cases hL : st.theme_cache.lookup (cacheKey pyHash c s) with
  | some t =>
    have hL' : st'.theme_cache.lookup (cacheKey pyHash c s) = some t := by
      rw [← hc]; exact hL
    simp [get_themes_cached, hL, hL', hc, hg]
  | none =>
    have hL' : st'.theme_cache.lookup (cacheKey pyHash c s) = none := by
      rw [← hc]; exact hL
    have h1 := extract_congr gen c st st' hg
    have h2 := (extract_effects gen c st).1
    have h3 := (extract_effects gen c st').1
    simp only [get_themes_cached, hL, hL']
    exact ⟨h1.1, by rw [h1.1, h2, h3, hc], h1.2⟩

end EngineLemmas

section ScanLemmas

variable (gen : Gen) (pyHash : String → Int) (cur : Finset String)
variable (excl : Option String)

/-- Every score pair the corpus loop emits strictly exceeds the similarity
threshold, and its identifier is the stem of an enumerated, non-excluded
corpus file. -/
theorem scan_sound (entries : List (PyDate × MDFile)) (st : EngineState)
    (p : ℚ × String) (hp : p ∈ (scanEntries gen pyHash cur excl entries st).1) :
    simThreshold < p.1 ∧
      ∃ d f, (d, f) ∈ entries ∧ p.2 = stemOf f.name ∧
        isExcluded excl (stemOf f.name) = false := by
  induction entries generalizing st with
  | nil => simp [scanEntries] at hp
  | cons e rest ih =>
    obtain ⟨d, f⟩ := e
    simp only [scanEntries] at hp
    by_cases hex : isExcluded excl (stemOf f.name) = true
    · rw [if_pos hex] at hp
      obtain ⟨ht, d', f', hmem, hstem, hexf⟩ := ih _ hp
      exact ⟨ht, d', f', List.mem_cons_of_mem _ hmem, hstem, hexf⟩
    · rw [if_neg hex] at hp
      by_cases herr : pyStartsWith f.content "Error reading file" = true
      · rw [if_pos herr] at hp
        obtain ⟨ht, d', f', hmem, hstem, hexf⟩ := ih _ hp
        exact ⟨ht, d', f', List.mem_cons_of_mem _ hmem, hstem, hexf⟩
      · rw [if_neg herr] at hp
        by_cases hne :
            (get_themes_cached gen pyHash f.content (stemOf f.name)
              { st with readCalls := st.readCalls + 1 }).1.toFinset ≠ ∅
        · rw [if_pos hne] at hp
          by_cases hth : simThreshold <
              ((cur ∩ (get_themes_cached gen pyHash f.content (stemOf f.name)
                { st with readCalls := st.readCalls + 1 }).1.toFinset).card : ℚ) /
              ((cur ∪ (get_themes_cached gen pyHash f.content (stemOf f.name)
                { st with readCalls := st.readCalls + 1 }).1.toFinset).card : ℚ)
          · rw [if_pos hth] at hp
            rcases List.mem_cons.mp hp with hp | hp
            · subst hp
              refine ⟨hth, d, f, List.mem_cons_self _ _, rfl, ?_⟩
              simpa using hex
            · obtain ⟨ht, d', f', hmem, hstem, hexf⟩ := ih _ hp
              exact ⟨ht, d', f', List.mem_cons_of_mem _ hmem, hstem, hexf⟩
          · rw [if_neg hth] at hp
            obtain ⟨ht, d', f', hmem, hstem, hexf⟩ := ih _ hp
            exact ⟨ht, d', f', List.mem_cons_of_mem _ hmem, hstem, hexf⟩
        · rw [if_neg hne] at hp
          obtain ⟨ht, d', f', hmem, hstem, hexf⟩ := ih _ hp
          exact ⟨ht, d', f', List.mem_cons_of_mem _ hmem, hstem, hexf⟩

/-- With an empty current theme set every similarity is `0`, so the corpus
loop keeps nothing. -/
theorem scan_empty_cur (entries : List (PyDate × MDFile)) (st : EngineState) :
    (scanEntries gen pyHash ∅ excl entries st).1 = [] := by
  induction entries generalizing st with
  | nil => simp [scanEntries]
  | cons e rest ih =>
    obtain ⟨d, f⟩ := e
    simp only [scanEntries]
    by_cases hex : isExcluded excl (stemOf f.name) = true
    · rw [if_pos hex]; exact ih _
    · rw [if_neg hex]
      by_cases herr : pyStartsWith f.content "Error reading file" = true
      · rw [if_pos herr]; exact ih _
      · rw [if_neg herr]
        by_cases hne :
            (get_themes_cached gen pyHash f.content (stemOf f.name)
              { st with readCalls := st.readCalls + 1 }).1.toFinset ≠ ∅
        · rw [if_pos hne]
          have hz : ((∅ ∩ (get_themes_cached gen pyHash f.content (stemOf f.name)
                { st with readCalls := st.readCalls + 1 }).1.toFinset).card : ℚ) /
              ((∅ ∪ (get_themes_cached gen pyHash f.content (stemOf f.name)
                { st with readCalls := st.readCalls + 1 }).1.toFinset).card : ℚ) = 0 := by
            simp
          rw [hz]
          have : ¬ simThreshold < (0 : ℚ) := by
            simp [simThreshold]
            norm_num
          rw [if_neg this]
          exact ih _
        · rw [if_neg hne]; exact ih _

/-- The emitted identifiers form a sublist of the enumerated stems: the score
list respects the encounter order of the corpus enumeration. -/
theorem scan_sublist (entries : List (PyDate × MDFile)) (st : EngineState) :
    ((scanEntries gen pyHash cur excl entries st).1.map Prod.snd).Sublist
      (entries.map (fun p => stemOf p.2.name)) := by
  induction entries generalizing st with
  | nil => simp [scanEntries]
  | cons e rest ih =>
    obtain ⟨d, f⟩ := e
    simp only [scanEntries, List.map_cons]
    by_cases hex : isExcluded excl (stemOf f.name) = true
    · rw [if_pos hex]; exact (ih _).cons _
    · rw [if_neg hex]
      by_cases herr : pyStartsWith f.content "Error reading file" = true
      · rw [if_pos herr]; exact (ih _).cons _
      · rw [if_neg herr]
        by_cases hne :
            (get_themes_cached gen pyHash f.content (stemOf f.name)
              { st with readCalls := st.readCalls + 1 }).1.toFinset ≠ ∅
        · rw [if_pos hne]
          by_cases hth : simThreshold <
              ((cur ∩ (get_themes_cached gen pyHash f.content (stemOf f.name)
                { st with readCalls := st.readCalls + 1 }).1.toFinset).card : ℚ) /
              ((cur ∪ (get_themes_cached gen pyHash f.content (stemOf f.name)
                { st with readCalls := st.readCalls + 1 }).1.toFinset).card : ℚ)
          · rw [if_pos hth]
            simpa using (ih _).cons₂ (stemOf f.name)
          · rw [if_neg hth]; exact (ih _).cons _
        · rw [if_neg hne]; exact (ih _).cons _

end ScanLemmas

section ScanCongr

variable (gen : Gen) (pyHash : String → Int) (cur : Finset String)
variable (excl : Option String)

/-- The score list and the cache/backend evolution of the corpus loop depend
on the incoming state only through the cache and the backend counter (the
read counter is pure instrumentation). -/
theorem scan_congr (entries : List (PyDate × MDFile)) (st st' : EngineState)
    (hc : st.theme_cache = st'.theme_cache) (hg : st.genCalls = st'.genCalls) :
    (scanEntries gen pyHash cur excl entries st).1
      = (scanEntries gen pyHash cur excl entries st').1 ∧
    (scanEntries gen pyHash cur excl entries st).2.theme_cache
      = (scanEntries gen pyHash cur excl entries st').2.theme_cache ∧
    (scanEntries gen pyHash cur excl entries st).2.genCalls
      = (scanEntries gen pyHash cur excl entries st').2.genCalls := by
  induction entries generalizing st st' with
  | nil => exact ⟨rfl, hc, hg⟩
  | cons e rest ih =>
    obtain ⟨d, f⟩ := e
    simp only [scanEntries]
    by_cases hex : isExcluded excl (stemOf f.name) = true
    · rw [if_pos hex, if_pos hex]
      exact ih st st' hc hg
    · rw [if_neg hex, if_neg hex]
      by_cases herr : pyStartsWith f.content "Error reading file" = true
      · rw [if_pos herr, if_pos herr]
        exact ih _ _ hc hg
      · rw [if_neg herr, if_neg herr]
        have hget := get_congr gen pyHash f.content (stemOf f.name)
          { st with readCalls := st.readCalls + 1 }
          { st' with readCalls := st'.readCalls + 1 } hc hg
        rw [← hget.1]
        by_cases hne :
            (get_themes_cached gen pyHash f.content (stemOf f.name)
              { st with readCalls := st.readCalls + 1 }).1.toFinset ≠ ∅
        · rw [if_pos hne, if_pos hne]
          have ihr := ih
            (get_themes_cached gen pyHash f.content (stemOf f.name)
              { st with readCalls := st.readCalls + 1 }).2
            (get_themes_cached gen pyHash f.content (stemOf f.name)
              { st' with readCalls := st'.readCalls + 1 }).2
            hget.2.1 hget.2.2
          by_cases hth : simThreshold <
              ((cur ∩ (get_themes_cached gen pyHash f.content (stemOf f.name)
                { st with readCalls := st.readCalls + 1 }).1.toFinset).card : ℚ) /
              ((cur ∪ (get_themes_cached gen pyHash f.content (stemOf f.name)
                { st with readCalls := st.readCalls + 1 }).1.toFinset).card : ℚ)
          · rw [if_pos hth, if_pos hth]
            exact ⟨by rw [ihr.1], ihr.2.1, ihr.2.2⟩
          · rw [if_neg hth, if_neg hth]
            exact ihr
        · rw [if_neg hne, if_neg hne]
          exact ih _ _ hget.2.1 hget.2.2

/-- Entries whose read returns the error sentinel contribute nothing to the
score list: scanning the corpus equals scanning the corpus with the
unreadable entries removed. -/
theorem scan_skip_err (entries : List (PyDate × MDFile)) (st : EngineState) :
    (scanEntries gen pyHash cur excl
        (entries.filter
          (fun df => !(pyStartsWith df.2.content "Error reading file"))) st).1
      = (scanEntries gen pyHash cur excl entries st).1 := by
  induction entries generalizing st with
  | nil => rfl
  | cons e rest ih =>
    obtain ⟨d, f⟩ := e
    by_cases herr : pyStartsWith f.content "Error reading file" = true
    · have hfe : ((d, f) :: rest).filter
          (fun df => !(pyStartsWith df.2.content "Error reading file"))
          = rest.filter
              (fun df => !(pyStartsWith df.2.content "Error reading file")) := by
        simp [List.filter_cons, herr]
      rw [hfe]
      conv_rhs => rw [show scanEntries gen pyHash cur excl ((d, f) :: rest) st
        = scanEntries gen pyHash cur excl ((d, f) :: rest) st from rfl]
      simp only [scanEntries]
      by_cases hex : isExcluded excl (stemOf f.name) = true
      · rw [if_pos hex]
        exact ih st
      · rw [if_neg hex, if_pos herr]
        rw [ih st]
        exact (scan_congr gen pyHash cur excl rest st
          { st with readCalls := st.readCalls + 1 } rfl rfl).1
    · have hfe : ((d, f) :: rest).filter
          (fun df => !(pyStartsWith df.2.content "Error reading file"))
          = (d, f) :: rest.filter
              (fun df => !(pyStartsWith df.2.content "Error reading file")) := by
        simp [List.filter_cons, herr]
      rw [hfe]
      simp only [scanEntries]
      by_cases hex : isExcluded excl (stemOf f.name) = true
      · rw [if_pos hex, if_pos hex]
        exact ih st
      · rw [if_neg hex, if_neg hex, if_neg herr, if_neg herr]
        by_cases hne :
            (get_themes_cached gen pyHash f.content (stemOf f.name)
              { st with readCalls := st.readCalls + 1 }).1.toFinset ≠ ∅
        · rw [if_pos hne, if_pos hne]
          by_cases hth : simThreshold <
              ((cur ∩ (get_themes_cached gen pyHash f.content (stemOf f.name)
                { st with readCalls := st.readCalls + 1 }).1.toFinset).card : ℚ) /
              ((cur ∪ (get_themes_cached gen pyHash f.content (stemOf f.name)
                { st with readCalls := st.readCalls + 1 }).1.toFinset).card : ℚ)
          · rw [if_pos hth, if_pos hth]
            simp only [List.cons.injEq, true_and]
            exact ih _
          · rw [if_neg hth, if_neg hth]
            exact ih _
        · rw [if_neg hne, if_neg hne]
          exact ih _

end ScanCongr

section EntryStoreLemmas

theorem globEntry_eq_some (f g : MDFile) (d : PyDate) :
    globEntry f = some (d, g) ↔
      g = f ∧ pyEndsWith f.name ".md" = true ∧ pyStartsWith f.name "." = false ∧
        parseDate (stemOf f.name) = some d := by
  unfold globEntry
  by_cases h1 : pyEndsWith f.name ".md" = true
  · rw [if_pos h1]
    by_cases h2 : pyStartsWith f.name "." = true
    · simp [h2]
    · rw [if_neg h2]
      cases hp : parseDate (stemOf f.name) with
      | some d' =>
        simp only [Option.some.injEq, Prod.mk.injEq]
        constructor
        · rintro ⟨hd, hg⟩
          subst hd
          subst hg
          exact ⟨rfl, h1, by simpa using h2, rfl⟩
        · rintro ⟨hg, -, -, hpd⟩
          exact ⟨hpd, hg.symm⟩
      | none => simp [hp]
  · simp [h1]

theorem get_all_entries_mem (fs : List MDFile) (d : PyDate) (f : MDFile) :
    (d, f) ∈ get_all_entries fs ↔
      f ∈ fs ∧ pyEndsWith f.name ".md" = true ∧ pyStartsWith f.name "." = false ∧
        parseDate (stemOf f.name) = some d := by
  unfold get_all_entries
  rw [(sortDescBy_perm (fun p : PyDate × MDFile => p.1) _).mem_iff,
    List.mem_filterMap]
  constructor
  · rintro ⟨a, ha, heq⟩
    rw [globEntry_eq_some] at heq
    obtain ⟨hfa, h1, h2, h3⟩ := heq
    subst hfa
    exact ⟨ha, h1, h2, h3⟩
  · rintro ⟨hmem, h1, h2, h3⟩
    exact ⟨f, hmem, (globEntry_eq_some f f d).mpr ⟨rfl, h1, h2, h3⟩⟩

theorem get_all_entries_sorted (fs : List MDFile) :
    (get_all_entries fs).Pairwise (fun a b => b.1 ≤ a.1) :=
  sortDescBy_pairwise (fun p : PyDate × MDFile => p.1) _

theorem filterMap_globEntry_filter (q : MDFile → Bool) (fs : List MDFile) :
    (fs.filter q).filterMap globEntry =
      (fs.filterMap globEntry).filter (fun df => q df.2) := by
  induction fs with
  | nil => rfl
  | cons f rest ih =>
    cases hq : q f with
    | true =>
      rw [List.filter_cons_of_pos hq]
      cases hg : globEntry f with
      | some p =>
        obtain ⟨d, g⟩ := p
        have hgf : g = f := ((globEntry_eq_some f g d).mp hg).1
        subst hgf
        rw [List.filterMap_cons_some hg, List.filterMap_cons_some hg,
          List.filter_cons_of_pos (by simpa using hq), ih]
      | none =>
        rw [List.filterMap_cons_none hg, List.filterMap_cons_none hg, ih]
    | false =>
      rw [List.filter_cons_of_neg (by simp [hq])]
      cases hg : globEntry f with
      | some p =>
        obtain ⟨d, g⟩ := p
        have hgf : g = f := ((globEntry_eq_some f g d).mp hg).1
        subst hgf
        rw [List.filterMap_cons_some hg,
          List.filter_cons_of_neg (by simp [hq]), ih]
      | none =>
        rw [List.filterMap_cons_none hg, ih]

theorem get_all_entries_filter (q : MDFile → Bool) (fs : List MDFile) :
    get_all_entries (fs.filter q) =
      (get_all_entries fs).filter (fun df => q df.2) := by
  unfold get_all_entries
  rw [filterMap_globEntry_filter, sortDescBy_filter_bool]

end EntryStoreLemmas

section CacheLemmas

/-- `find_related_entries` returns exactly the stable descending sort of the
score list, truncated and formatted (in the empty-theme branch both sides are
empty). -/
theorem find_related_eq (gen : Gen) (pyHash : String → Int) (fs : List MDFile)
    (c : String) (excl : Option String) (m : Nat) (st : EngineState) :
    (find_related_entries gen pyHash fs c excl m st).1 =
      ((sortDescBy (fun p => p.1)
        (similarity_scores gen pyHash fs c excl st)).take m).map
        (fun p => "[[" ++ p.2 ++ "]]") := by
  unfold find_related_entries similarity_scores
  by_cases hcur : (get_themes_cached gen pyHash c (pyOrCurrent excl) st).1.toFinset
      = (∅ : Finset String)
  · rw [if_pos hcur, hcur, scan_empty_cur]
    simp [sortDescBy]
  · rw [if_neg hcur]

/-- Two successive cache accesses with the same content and identifier: the
second is a pure cache hit — same themes, unchanged state. -/
theorem get_pair (gen : Gen) (pyHash : String → Int) (c s : String)
    (st : EngineState) :
    (get_themes_cached gen pyHash c s
        (get_themes_cached gen pyHash c s st).2).1
      = (get_themes_cached gen pyHash c s st).1 ∧
    (get_themes_cached gen pyHash c s
        (get_themes_cached gen pyHash c s st).2).2
      = (get_themes_cached gen pyHash c s st).2 := by
  cases hL : st.theme_cache.lookup (cacheKey pyHash c s) with
  | some t => simp [get_themes_cached, hL]
  | none => simp [get_themes_cached, hL, List.lookup]

/-- Extractor-invocation bound for an arbitrary sequence of cache accesses:
the number of extractor invocations is at most the number of distinct
fingerprints that are not already cached. -/
theorem runCalls_bound (gen : Gen) (pyHash : String → Int)
    (calls : List (String × String)) (st : EngineState) :
    (runCalls gen pyHash calls st).extractCalls ≤ st.extractCalls +
      ((calls.map (fun cs => cacheKey pyHash cs.1 cs.2)).toFinset.filter
        (fun k => st.theme_cache.lookup k = none)).card := by
  induction calls generalizing st with
  | nil => simp [runCalls]
  | cons cs rest ih =>
    obtain ⟨c, s⟩ := cs
    simp only [runCalls, List.map_cons, List.toFinset_cons]
    cases hL : st.theme_cache.lookup (cacheKey pyHash c s) with
    | some t =>
      simp only [get_themes_cached, hL]
      have hins : ((insert (cacheKey pyHash c s)
          ((rest.map (fun cs => cacheKey pyHash cs.1 cs.2)).toFinset)).filter
            (fun k => st.theme_cache.lookup k = none)) =
          ((rest.map (fun cs => cacheKey pyHash cs.1 cs.2)).toFinset).filter
            (fun k => st.theme_cache.lookup k = none) := by
        rw [Finset.filter_insert, if_neg]
        simp [hL]
      rw [hins]
      exact ih st
    | none =>
      simp only [get_themes_cached, hL]
      refine le_trans (ih _) ?_
      have hcache := (extract_effects gen c st).1
      have hcalls := (extract_effects gen c st).2.1
      simp only [hcache, hcalls]
      have hlk : ∀ k : String,
          (((cacheKey pyHash c s, (extract_themes_and_topics gen c st).1) ::
            st.theme_cache).lookup k = none) ↔
          (¬ (cacheKey pyHash c s = k) ∧ st.theme_cache.lookup k = none) := by
        intro k
        by_cases hbe : cacheKey pyHash c s = k
        · subst hbe
          have hbeq : ((cacheKey pyHash c s) == (cacheKey pyHash c s)) = true := by
            simp
          simp only [List.lookup, hbeq]
          simp
        · have hbe2 : ¬ (k = cacheKey pyHash c s) := fun h => hbe h.symm
          have hbeq : (k == cacheKey pyHash c s) = false := by
            simpa using hbe2
          simp only [List.lookup, hbeq]
          constructor
          · intro h; exact ⟨hbe, h⟩
          · rintro ⟨-, h⟩; exact h
      have herase :
          (((rest.map (fun cs => cacheKey pyHash cs.1 cs.2)).toFinset).filter
            (fun k => (((cacheKey pyHash c s,
                (extract_themes_and_topics gen c st).1) ::
              st.theme_cache).lookup k = none))) =
          ((((rest.map (fun cs => cacheKey pyHash cs.1 cs.2)).toFinset).filter
            (fun k => st.theme_cache.lookup k = none)).erase
              (cacheKey pyHash c s)) := by
        ext k
        simp only [Finset.mem_filter, Finset.mem_erase, hlk k, ne_eq]
        constructor
        · rintro ⟨hm, hne, hl⟩
          exact ⟨fun hk => hne hk.symm, hm, hl⟩
        · rintro ⟨hne, hm, hl⟩
          exact ⟨hm, fun hk => hne hk.symm, hl⟩
      rw [herase]
      have hfi : ((insert (cacheKey pyHash c s)
          ((rest.map (fun cs => cacheKey pyHash cs.1 cs.2)).toFinset)).filter
            (fun k => st.theme_cache.lookup k = none)) =
          insert (cacheKey pyHash c s)
            ((((rest.map (fun cs => cacheKey pyHash cs.1 cs.2)).toFinset)).filter
              (fun k => st.theme_cache.lookup k = none)) := by
        rw [Finset.filter_insert, if_pos hL]
      rw [hfi]
      have hcard : (insert (cacheKey pyHash c s)
          ((((rest.map (fun cs => cacheKey pyHash cs.1 cs.2)).toFinset)).filter
            (fun k => st.theme_cache.lookup k = none))).card =
          (((((rest.map (fun cs => cacheKey pyHash cs.1 cs.2)).toFinset)).filter
            (fun k => st.theme_cache.lookup k = none)).erase
              (cacheKey pyHash c s)).card + 1 := by
        by_cases hk : cacheKey pyHash c s ∈
            (((rest.map (fun cs => cacheKey pyHash cs.1 cs.2)).toFinset)).filter
              (fun k => st.theme_cache.lookup k = none)
        · rw [Finset.insert_eq_self.mpr hk, ← Finset.card_erase_add_one hk]
        · rw [Finset.card_insert_of_not_mem hk, Finset.erase_eq_of_not_mem hk]
      omega

end CacheLemmas

section ReprLemmas

theorem foldl_digits_shift (l : List Char) (a : Nat) :
    l.foldl (fun a c => a * 10 + digitVal c) a
      = a * 10 ^ l.length + valOfDigits l := by
  induction l generalizing a with
  | nil => simp [valOfDigits]
  | cons c cs ih =>
    have h1 : valOfDigits (c :: cs)
        = (c :: cs).foldl (fun a c => a * 10 + digitVal c) 0 := rfl
    simp only [List.foldl_cons] at h1 ⊢
    rw [ih (a * 10 + digitVal c), h1, ih (0 * 10 + digitVal c),
      List.length_cons]
    ring

theorem valOfDigits_cons (c : Char) (ds : List Char) :
    valOfDigits (c :: ds) = digitVal c * 10 ^ ds.length + valOfDigits ds := by
  have h1 : valOfDigits (c :: ds)
      = ds.foldl (fun a c => a * 10 + digitVal c) (0 * 10 + digitVal c) := rfl
  rw [h1, foldl_digits_shift]
  ring_nf

theorem digitVal_digitChar (m : Nat) (h : m < 10) :
    digitVal (Nat.digitChar m) = m ∧ (Nat.digitChar m).isDigit = true := by
  interval_cases m <;> exact ⟨by decide, by decide⟩

theorem digits_arith (a b q v : Nat) :
    a * (q * 10) + (b * q + v) = (10 * a + b) * q + v := by ring

theorem toDigitsCore_val (fuel : Nat) : ∀ (n : Nat) (ds : List Char),
    n < fuel →
      valOfDigits (Nat.toDigitsCore 10 fuel n ds)
        = n * 10 ^ ds.length + valOfDigits ds := by
  induction fuel with
  | zero => intro n ds h; omega
  | succ f ih =>
    intro n ds h
    simp only [Nat.toDigitsCore]
    by_cases h0 : n / 10 = 0
    · rw [if_pos h0]
      have hm : n % 10 = n := by omega
      have hd := (digitVal_digitChar (n % 10) (Nat.mod_lt _ (by norm_num))).1
      rw [valOfDigits_cons, hd, hm]
    · rw [if_neg h0]
      have hlt : n / 10 < f := by
        have h1 : n / 10 < n := Nat.div_lt_self (by omega) (by norm_num)
        omega
      rw [ih _ _ hlt, valOfDigits_cons,
        (digitVal_digitChar (n % 10) (Nat.mod_lt _ (by norm_num))).1,
        List.length_cons, pow_succ, digits_arith, Nat.div_add_mod]

theorem valOfDigits_toDigits (n : Nat) :
    valOfDigits (Nat.toDigits 10 n) = n := by
  unfold Nat.toDigits
  rw [toDigitsCore_val (n + 1) n [] (Nat.lt_succ_self n)]
  simp [valOfDigits]

theorem natRepr_injective : Function.Injective Nat.repr := by
  intro a b h
  have hdata : Nat.toDigits 10 a = Nat.toDigits 10 b := congrArg String.data h
  rw [← valOfDigits_toDigits a, ← valOfDigits_toDigits b, hdata]

theorem toDigitsCore_digits (fuel : Nat) : ∀ (n : Nat) (ds : List Char),
    ∀ c ∈ Nat.toDigitsCore 10 fuel n ds, c ∈ ds ∨ c.isDigit = true := by
  induction fuel with
  | zero => intro n ds c hc; exact Or.inl hc
  | succ f ih =>
    intro n ds c hc
    simp only [Nat.toDigitsCore] at hc
    have hdig := (digitVal_digitChar (n % 10) (Nat.mod_lt _ (by norm_num))).2
    by_cases h0 : n / 10 = 0
    · rw [if_pos h0] at hc
      rcases List.mem_cons.mp hc with hc | hc
      · exact Or.inr (hc ▸ hdig)
      · exact Or.inl hc
    · rw [if_neg h0] at hc
      rcases ih _ _ c hc with hc | hc
      · rcases List.mem_cons.mp hc with hc | hc
        · exact Or.inr (hc ▸ hdig)
        · exact Or.inl hc
      · exact Or.inr hc

theorem natRepr_digits (n : Nat) :
    ∀ c ∈ (Nat.repr n).data, c.isDigit = true := by
  intro c hc
  have hc2 : c ∈ Nat.toDigits 10 n := hc
  rcases toDigitsCore_digits (n + 1) n [] c hc2 with hc3 | hc3
  · exact absurd hc3 (List.not_mem_nil c)
  · exact hc3

theorem toDigitsCore_length_gt (fuel : Nat) : ∀ (n : Nat) (ds : List Char),
    0 < fuel → ds.length < (Nat.toDigitsCore 10 fuel n ds).length := by
  induction fuel with
  | zero => intro n ds h; omega
  | succ f ih =>
    intro n ds _
    simp only [Nat.toDigitsCore]
    by_cases h0 : n / 10 = 0
    · rw [if_pos h0]; simp
    · rw [if_neg h0]
      by_cases hf : f = 0
      · subst hf
        simp [Nat.toDigitsCore]
      · have := ih (n / 10) (Nat.digitChar (n % 10) :: ds) (by omega)
        simp only [List.length_cons] at this
        omega

theorem natRepr_ne_nil (n : Nat) : (Nat.repr n).data ≠ [] := by
  have h := toDigitsCore_length_gt (n + 1) n [] (by omega)
  intro hc
  have hc2 : Nat.toDigitsCore 10 (n + 1) n [] = [] := hc
  rw [hc2] at h
  simp at h

theorem intRepr_chars (i : Int) :
    ∀ c ∈ (Int.repr i).data, c = '-' ∨ c.isDigit = true := by
  intro c hc
  cases i with
  | ofNat m => exact Or.inr (natRepr_digits m c hc)
  | negSucc m =>
    simp only [Int.repr, String.data_append] at hc
    rcases List.mem_append.mp hc with hc | hc
    · left
      simpa using hc
    · exact Or.inr (natRepr_digits _ c hc)

theorem intRepr_injective : Function.Injective Int.repr := by
  intro a b h
  cases a with
  | ofNat m =>
    cases b with
    | ofNat k =>
      exact congrArg Int.ofNat (natRepr_injective h)
    | negSucc k =>
      exfalso
      simp only [Int.repr, String.data_append] at h
      have hdata : (Nat.repr m).data = '-' :: (Nat.repr (k + 1)).data :=
        congrArg String.data h
      have hmem : '-' ∈ (Nat.repr m).data := by
        rw [hdata]; exact List.mem_cons_self _ _
      have := natRepr_digits m '-' hmem
      exact absurd this (by decide)
  | negSucc m =>
    cases b with
    | ofNat k =>
      exfalso
      simp only [Int.repr, String.data_append] at h
      have hdata : '-' :: (Nat.repr (m + 1)).data = (Nat.repr k).data :=
        congrArg String.data h
      have hmem : '-' ∈ (Nat.repr k).data := by
        rw [← hdata]; exact List.mem_cons_self _ _
      have := natRepr_digits k '-' hmem
      exact absurd this (by decide)
    | negSucc k =>
      simp only [Int.repr] at h
      have hdata : '-' :: (Nat.repr (m + 1)).data = '-' :: (Nat.repr (k + 1)).data :=
        congrArg String.data h
      have h2 : Nat.repr (m + 1) = Nat.repr (k + 1) :=
        String.ext (List.cons.inj hdata).2
      have h3 := natRepr_injective h2
      simp only [Int.negSucc.injEq]
      omega

/-- Splitting a character list at an underscore separator is unambiguous when
neither prefix contains an underscore. -/
theorem append_underscore_inj : ∀ (l1 l2 r1 r2 : List Char),
    '_' ∉ l1 → '_' ∉ l2 → l1 ++ '_' :: r1 = l2 ++ '_' :: r2 →
      l1 = l2 ∧ r1 = r2 := by
  intro l1
  induction l1 with
  | nil =>
    intro l2 r1 r2 _ h2 heq
    cases l2 with
    | nil => simpa using heq
    | cons c cs =>
      exfalso
      simp only [List.nil_append, List.cons_append, List.cons.injEq] at heq
      exact h2 (heq.1 ▸ List.mem_cons_self _ _)
  | cons c cs ih =>
    intro l2 r1 r2 h1 h2 heq
    cases l2 with
    | nil =>
      exfalso
      simp only [List.cons_append, List.nil_append, List.cons.injEq] at heq
      exact h1 (heq.1.symm ▸ List.mem_cons_self _ _)
    | cons d ds =>
      simp only [List.cons_append, List.cons.injEq] at heq
      have h1' : '_' ∉ cs := fun hm => h1 (List.mem_cons_of_mem _ hm)
      have h2' : '_' ∉ ds := fun hm => h2 (List.mem_cons_of_mem _ hm)
      obtain ⟨hl, hr⟩ := ih ds r1 r2 h1' h2' heq.2
      exact ⟨by rw [heq.1, hl], hr⟩

theorem natRepr_no_underscore (n : Nat) : '_' ∉ (Nat.repr n).data := by
  intro hm
  have := natRepr_digits n '_' hm
  exact absurd this (by decide)

theorem intRepr_no_underscore (i : Int) : '_' ∉ (Int.repr i).data := by
  intro hm
  rcases intRepr_chars i '_' hm with hc | hc
  · exact absurd hc (by decide)
  · exact absurd hc (by decide)

/-- Fingerprint injectivity for a fixed identifier: equal fingerprints force
equal content length and equal prefix hash. -/
theorem cacheKey_components (pyHash : String → Int) (c1 c2 s : String)
    (h : cacheKey pyHash c1 s = cacheKey pyHash c2 s) :
    c1.length = c2.length ∧ pyHash (pyTake 100 c1) = pyHash (pyTake 100 c2) := by
  have hd := congrArg String.data h
  simp only [cacheKey, String.data_append] at hd
  simp only [List.append_assoc, List.cons_append, List.nil_append] at hd
  have hd2 := List.append_cancel_left hd
  have hd3 := (List.cons.inj hd2).2
  have hshape : (Nat.repr c1.length).data ++ '_' ::
      (Int.repr (pyHash (pyTake 100 c1))).data
      = (Nat.repr c2.length).data ++ '_' ::
        (Int.repr (pyHash (pyTake 100 c2))).data := by
    simpa using hd3
  obtain ⟨hlen, hhash⟩ := append_underscore_inj _ _ _ _
    (natRepr_no_underscore _) (natRepr_no_underscore _) hshape
  constructor
  · exact natRepr_injective (String.ext hlen)
  · exact intRepr_injective (String.ext hhash)

end ReprLemmas

section PromptLemmas

theorem promptStep_eq (acc : List String) (rawLine : String) :
    promptStep acc rawLine = acc ++ (promptOf rawLine).toList := by
  unfold promptStep promptOf
  by_cases h1 : hasSkipMarker (pyLower (pyStrip rawLine)) = true
  · simp [h1]
  · rw [if_neg h1, if_neg h1]
    by_cases h2 : (pyStrip rawLine ≠ "" &&
        (pyStartsWith (pyStrip rawLine) "1." ||
          pyStartsWith (pyStrip rawLine) "2." ||
          pyStartsWith (pyStrip rawLine) "3." ||
          pyStartsWith (pyStrip rawLine) "4." ||
          pyStartsWith (pyStrip rawLine) "5." ||
          pyStartsWith (pyStrip rawLine) "-")) = true
    · rw [if_pos h2, if_pos h2]
      by_cases h3 : (pyStrip (pyDropWhile isMarkerChar (pyStrip rawLine)) ≠ "" &&
          (pyEndsWith (pyStrip (pyDropWhile isMarkerChar (pyStrip rawLine)))
              "?" ||
            (pyStrip (pyDropWhile isMarkerChar (pyStrip rawLine))).length
              > 20)) = true
      · rw [if_pos h3, if_pos h3]; simp
      · rw [if_neg h3, if_neg h3]; simp
    · rw [if_neg h2, if_neg h2]; simp

theorem foldl_promptStep (lines : List String) : ∀ acc : List String,
    lines.foldl promptStep acc = acc ++ lines.filterMap promptOf := by
  induction lines with
  | nil => intro acc; simp
  | cons l ls ih =>
    intro acc
    rw [List.foldl_cons, ih, promptStep_eq]
    cases hp : promptOf l with
    | some p => rw [List.filterMap_cons_some hp]; simp
    | none => rw [List.filterMap_cons_none hp]; simp

theorem backlink_inj (s t : String)
    (h : "[[" ++ s ++ "]]" = "[[" ++ t ++ "]]") : s = t := by
  have hd := congrArg String.data h
  simp only [String.data_append] at hd
  exact String.ext (List.append_cancel_left (List.append_cancel_right hd))

end PromptLemmas

/-- C1: Cache idempotence: two successive `get_themes_cached` calls with
identical content and identifier perform at most one extractor (and at most
one backend) invocation in total — the second call returns the identical
theme list and leaves the state untouched — and, over any sequence of
`get_themes_cached` calls from process start, at most one extractor
invocation occurs per distinct fingerprint. -/
theorem spec_C1_cache_idempotence (gen : Gen) (pyHash : String → Int)
    (content identifier : String) (st : EngineState) :
    (get_themes_cached gen pyHash content identifier
        (get_themes_cached gen pyHash content identifier st).2).1
      = (get_themes_cached gen pyHash content identifier st).1 ∧
    (get_themes_cached gen pyHash content identifier
        (get_themes_cached gen pyHash content identifier st).2).2
      = (get_themes_cached gen pyHash content identifier st).2 ∧
    (get_themes_cached gen pyHash content identifier st).2.extractCalls
      ≤ st.extractCalls + 1 ∧
    (get_themes_cached gen pyHash content identifier st).2.genCalls
      ≤ st.genCalls + 1 ∧
    ∀ calls : List (String × String),
      (runCalls gen pyHash calls initState).extractCalls ≤
        (calls.map (fun cs => cacheKey pyHash cs.1 cs.2)).toFinset.card := by
  refine ⟨(get_pair gen pyHash content identifier st).1,
    (get_pair gen pyHash content identifier st).2,
    (get_effects gen pyHash content identifier st).2.2.2.1,
    (get_effects gen pyHash content identifier st).2.2.2.2.2, ?_⟩
  intro calls
  have h := runCalls_bound gen pyHash calls initState
  have h0 : initState.extractCalls = 0 := rfl
  rw [h0, Nat.zero_add] at h
  exact le_trans h (Finset.card_filter_le _ _)

/-- C3: Ranking order and result bound: `find_related_entries` returns the
kept candidates sorted by descending similarity — a permutation of the score
list that is pairwise non-increasing and, on every similarity class, keeps
the original encounter order (stable sort) — truncated to at most
`max_related` elements and formatted as `[[stem]]` backlinks. -/
theorem spec_C3_ranking_order (gen : Gen) (pyHash : String → Int)
    (fs : List MDFile) (content : String) (excl : Option String) (m : Nat)
    (st : EngineState) :
    (find_related_entries gen pyHash fs content excl m st).1
      = ((sortDescBy (fun p => p.1)
          (similarity_scores gen pyHash fs content excl st)).take m).map
          (fun p => "[[" ++ p.2 ++ "]]") ∧
    List.Perm
      (sortDescBy (fun p => p.1) (similarity_scores gen pyHash fs content excl st))
      (similarity_scores gen pyHash fs content excl st) ∧
    (sortDescBy (fun p => p.1)
      (similarity_scores gen pyHash fs content excl st)).Pairwise
        (fun a b => b.1 ≤ a.1) ∧
    (∀ q : ℚ,
      (sortDescBy (fun p => p.1)
        (similarity_scores gen pyHash fs content excl st)).filter
          (fun p => decide (p.1 = q))
        = (similarity_scores gen pyHash fs content excl st).filter
            (fun p => decide (p.1 = q))) ∧
    (find_related_entries gen pyHash fs content excl m st).1.length ≤ m := by
  refine ⟨find_related_eq gen pyHash fs content excl m st,
    sortDescBy_perm _ _, sortDescBy_pairwise _ _,
    fun q => sortDescBy_filter_key _ _ q, ?_⟩
  rw [find_related_eq]
  rw [List.length_map]
  exact List.length_take_le _ _

/-- C10: Corpus enumeration: `get_all_entries` returns exactly the `.md`
files whose stem parses as a `%Y-%m-%d` date (dot-files and unparseable
names skipped), sorted newest-first; consequently the relatedness scan's
encounter order — the order of the score list, which is what descending-sort
tie-breaking preserves — is that newest-first date order (the emitted stems
form a sublist of the sorted enumeration). -/
theorem spec_C10_corpus_enumeration (fs : List MDFile) (gen : Gen)
    (pyHash : String → Int) (cur : Finset String) (excl : Option String)
    (st : EngineState) :
    (∀ (d : PyDate) (f : MDFile), (d, f) ∈ get_all_entries fs ↔
      f ∈ fs ∧ pyEndsWith f.name ".md" = true ∧ pyStartsWith f.name "." = false ∧
        parseDate (stemOf f.name) = some d) ∧
    (get_all_entries fs).Pairwise (fun a b => b.1 ≤ a.1) ∧
    ((scanEntries gen pyHash cur excl (get_all_entries fs) st).1.map
      Prod.snd).Sublist ((get_all_entries fs).map (fun p => stemOf p.2.name)) :=
  ⟨fun d f => get_all_entries_mem fs d f, get_all_entries_sorted fs,
    scan_sublist gen pyHash cur excl (get_all_entries fs) st⟩

/-- C2: Threshold exclusion: every kept score strictly exceeds 0.08, every
returned backlink comes from a kept score strictly above 0.08 (so a
candidate whose similarity is at or below 0.08 never appears), and every
kept candidate ranking among the top `max_related` after the sort does
appear in the returned backlinks. -/
theorem spec_C2_threshold_exclusion (gen : Gen) (pyHash : String → Int)
    (fs : List MDFile) (content : String) (excl : Option String) (m : Nat)
    (st : EngineState) :
    (∀ p ∈ similarity_scores gen pyHash fs content excl st,
      simThreshold < p.1) ∧
    (∀ b ∈ (find_related_entries gen pyHash fs content excl m st).1,
      ∃ p ∈ similarity_scores gen pyHash fs content excl st,
        simThreshold < p.1 ∧ b = "[[" ++ p.2 ++ "]]") ∧
    (∀ p ∈ (sortDescBy (fun x => x.1)
        (similarity_scores gen pyHash fs content excl st)).take m,
      ("[[" ++ p.2 ++ "]]")
        ∈ (find_related_entries gen pyHash fs content excl m st).1) := by
  refine ⟨?_, ?_, ?_⟩
  · intro p hp
    exact (scan_sound gen pyHash _ excl _ _ p hp).1
  · intro b hb
    rw [find_related_eq] at hb
    obtain ⟨p, hp, heq⟩ := List.mem_map.mp hb
    have hp2 := (sortDescBy_perm (fun x : ℚ × String => x.1) _).mem_iff.mp
      (List.mem_of_mem_take hp)
    exact ⟨p, hp2, (scan_sound gen pyHash _ excl _ _ p hp2).1, heq.symm⟩
  · intro p hp
    rw [find_related_eq]
    exact List.mem_map_of_mem _ hp

section RatEval

attribute [local semireducible] Rat.mul Rat.inv

/-- C2 witness: the end-to-end two-entry scenario; the candidate with
similarity 1 > 0.08 appears in the returned backlinks. -/
theorem spec_C2_threshold_exclusion_witness :
    ("[[2024-01-01]]" : String) ∈ (find_related_entries
      ((fun _ => some "job, anxiety, interview") : Gen) (fun _ => 0)
      [⟨"2024-01-01.md", "I felt anxious about my job interview today okay"⟩]
      "Another stressful day interviewing for jobs today"
      (some "2024-01-02") 6 initState).1 :=
  (spec_C2_threshold_exclusion
    ((fun _ => some "job, anxiety, interview") : Gen) (fun _ => 0)
    [⟨"2024-01-01.md", "I felt anxious about my job interview today okay"⟩]
    "Another stressful day interviewing for jobs today"
    (some "2024-01-02") 6 initState).2.2 ((1 : ℚ), "2024-01-01") (by decide)

end RatEval

/-- C4: Empty-theme short-circuit: when the current content's theme set is
empty, `find_related_entries` returns `[]` with the state exactly as after
the current-themes cache access — in particular no `get_all_entries` call
and no `read_entry` call happened. -/
theorem spec_C4_empty_theme_short_circuit (gen : Gen) (pyHash : String → Int)
    (fs : List MDFile) (content : String) (excl : Option String) (m : Nat)
    (st : EngineState)
    (h : (get_themes_cached gen pyHash content
      (pyOrCurrent excl) st).1.toFinset = ∅) :
    (find_related_entries gen pyHash fs content excl m st).1 = [] ∧
    (find_related_entries gen pyHash fs content excl m st).2
      = (get_themes_cached gen pyHash content (pyOrCurrent excl) st).2 ∧
    (find_related_entries gen pyHash fs content excl m st).2.readCalls
      = st.readCalls ∧
    (find_related_entries gen pyHash fs content excl m st).2.listCalls
      = st.listCalls := by
  have hbr : find_related_entries gen pyHash fs content excl m st
      = ([], (get_themes_cached gen pyHash content (pyOrCurrent excl) st).2) := by
    unfold find_related_entries
    rw [if_pos h]
  refine ⟨by rw [hbr], by rw [hbr], ?_, ?_⟩
  · rw [hbr]
    exact (get_effects gen pyHash content (pyOrCurrent excl) st).1
  · rw [hbr]
    exact (get_effects gen pyHash content (pyOrCurrent excl) st).2.1

/-- C4 witness: near-empty content yields no themes, the corpus holding one
entry is neither enumerated nor read, and the result is empty. -/
theorem spec_C4_empty_theme_short_circuit_witness :
    (get_themes_cached ((fun _ => none) : Gen) (fun _ => 0) ""
      (pyOrCurrent none) initState).1.toFinset = (∅ : Finset String) ∧
    (find_related_entries ((fun _ => none) : Gen) (fun _ => 0)
      [⟨"2024-01-01.md", "a perfectly readable diary entry about gardens"⟩]
      "" none 6 initState).1 = [] ∧
    (find_related_entries ((fun _ => none) : Gen) (fun _ => 0)
      [⟨"2024-01-01.md", "a perfectly readable diary entry about gardens"⟩]
      "" none 6 initState).2.readCalls = 0 :=
  ⟨by decide,
    (spec_C4_empty_theme_short_circuit ((fun _ => none) : Gen) (fun _ => 0)
      [⟨"2024-01-01.md", "a perfectly readable diary entry about gardens"⟩]
      "" none 6 initState (by decide)).1,
    (spec_C4_empty_theme_short_circuit ((fun _ => none) : Gen) (fun _ => 0)
      [⟨"2024-01-01.md", "a perfectly readable diary entry about gardens"⟩]
      "" none 6 initState (by decide)).2.2.1⟩

/-- C5: Self-exclusion: for every corpus and every provided
`exclude_date = some e`, the returned backlinks never contain `[[e]]` — for
a truthy `e` every matching entry is skipped, and a falsy `e = ""` can never
equal the stem of an enumerated entry, whose stem parses as a date. -/
theorem spec_C5_self_exclusion (gen : Gen) (pyHash : String → Int)
    (fs : List MDFile) (content : String) (e : String) (m : Nat)
    (st : EngineState) :
    ("[[" ++ e ++ "]]")
      ∉ (find_related_entries gen pyHash fs content (some e) m st).1 := by
  intro hmem
  rw [find_related_eq] at hmem
  obtain ⟨p, hp, heq⟩ := List.mem_map.mp hmem
  have hpscores := (sortDescBy_perm (fun x : ℚ × String => x.1) _).mem_iff.mp
    (List.mem_of_mem_take hp)
  obtain ⟨-, d, f, hmem2, hstem, hexf⟩ :=
    scan_sound gen pyHash _ (some e) _ _ p hpscores
  have hse : p.2 = e := backlink_inj _ _ heq
  by_cases he : e = ""
  · have hdate := ((get_all_entries_mem fs d f).mp hmem2).2.2.2
    rw [← hstem, hse, he] at hdate
    have hnone : parseDate "" = none := rfl
    rw [hnone] at hdate
    exact Option.noConfusion hdate
  · rw [← hstem, hse] at hexf
    simp [isExcluded, he] at hexf

/-- C5 witness: the excluded entry's own file is in the corpus and would
match, yet its backlink is absent. -/
theorem spec_C5_self_exclusion_witness :
    ("[[2024-01-02]]" : String) ∉ (find_related_entries
      ((fun _ => some "job, anxiety, interview") : Gen) (fun _ => 0)
      [⟨"2024-01-02.md", "Another stressful day interviewing for jobs today"⟩,
        ⟨"2024-01-01.md", "I felt anxious about my job interview today okay"⟩]
      "Another stressful day interviewing for jobs today"
      "2024-01-02" 6 initState).1 :=
  spec_C5_self_exclusion
    ((fun _ => some "job, anxiety, interview") : Gen) (fun _ => 0)
    [⟨"2024-01-02.md", "Another stressful day interviewing for jobs today"⟩,
      ⟨"2024-01-01.md", "I felt anxious about my job interview today okay"⟩]
    "Another stressful day interviewing for jobs today"
    "2024-01-02" 6 initState

/-- C6: Theme token shape and hard cap: on a successful generation call the
extractor returns at most 5 tokens, each of which is some raw comma-split
token of the stripped response, non-blank after stripping, in
stripped-and-lowercased form. -/
theorem spec_C6_theme_token_shape (gen : Gen) (content : String)
    (st : EngineState) (response : String)
    (h : gen st.genCalls = some response) :
    (extract_themes_and_topics gen content st).1.length ≤ 5 ∧
    ∀ t ∈ (extract_themes_and_topics gen content st).1,
      ∃ raw ∈ pySplitOn ',' (pyStrip response),
        pyStrip raw ≠ "" ∧ t = pyLower (pyStrip raw) := by
  unfold extract_themes_and_topics
  by_cases hC : (pyStrip (selectAnalysisContent content)).length < 20
  · simp [hC]
  · rw [if_neg hC]
    simp only [h]
    constructor
    · show (parseThemes response).length ≤ 5
      unfold parseThemes
      exact List.length_take_le _ _
    · intro t ht
      have ht' : t ∈ (((pySplitOn ',' (pyStrip response)).filter
          (fun t => pyStrip t ≠ "")).map (fun t => pyLower (pyStrip t))).take 5 :=
        ht
      have ht2 := List.mem_of_mem_take ht'
      obtain ⟨raw, hraw, heq⟩ := List.mem_map.mp ht2
      refine ⟨raw, List.mem_of_mem_filter hraw, ?_, heq.symm⟩
      have hne := (List.mem_filter.mp hraw).2
      simpa using hne

/-- C6 witness: a messy backend response is split, trimmed, lowercased,
blank-dropped and capped. -/
theorem spec_C6_theme_token_shape_witness :
    ((fun _ => some " Friendship, Work-Stress ,, creativity ") : Gen)
        initState.genCalls = some " Friendship, Work-Stress ,, creativity " ∧
    (extract_themes_and_topics
      ((fun _ => some " Friendship, Work-Stress ,, creativity ") : Gen)
      "Today I wrote about friendship and work stress in my journal."
      initState).1 = ["friendship", "work-stress", "creativity"] ∧
    (extract_themes_and_topics
      ((fun _ => some " Friendship, Work-Stress ,, creativity ") : Gen)
      "Today I wrote about friendship and work stress in my journal."
      initState).1.length ≤ 5 :=
  ⟨rfl, by decide,
    (spec_C6_theme_token_shape
      ((fun _ => some " Friendship, Work-Stress ,, creativity ") : Gen)
      "Today I wrote about friendship and work stress in my journal."
      initState " Friendship, Work-Stress ,, creativity " rfl).1⟩

/-- C7: Error absorption: a failing generation call makes the extractor
return an empty theme list instead of raising, and entries whose read
returns the error sentinel are skipped without aborting the scan — the
returned backlinks equal those for the corpus with the unreadable files
removed (the model is a total function, so no exception can escape). -/
theorem spec_C7_error_absorption :
    (∀ (gen : Gen) (content : String) (st : EngineState),
      gen st.genCalls = none →
        (extract_themes_and_topics gen content st).1 = []) ∧
    (∀ (gen : Gen) (pyHash : String → Int) (fs : List MDFile)
        (content : String) (excl : Option String) (m : Nat) (st : EngineState),
      (find_related_entries gen pyHash fs content excl m st).1 =
        (find_related_entries gen pyHash
          (fs.filter (fun f => !(pyStartsWith f.content "Error reading file")))
          content excl m st).1) := by
  constructor
  · intro gen content st h
    unfold extract_themes_and_topics
    by_cases hC : (pyStrip (selectAnalysisContent content)).length < 20
    · simp [hC]
    · simp [hC, h]
  · intro gen pyHash fs content excl m st
    rw [find_related_eq, find_related_eq]
    have hsc : similarity_scores gen pyHash
        (fs.filter (fun f => !(pyStartsWith f.content "Error reading file")))
        content excl st = similarity_scores gen pyHash fs content excl st := by
      unfold similarity_scores
      rw [get_all_entries_filter]
      exact scan_skip_err gen pyHash _ excl (get_all_entries fs) _
    rw [hsc]

/-- C7 witness: a raising backend call is absorbed into an empty theme
list. -/
theorem spec_C7_error_absorption_witness :
    ((fun _ => none) : Gen) initState.genCalls = none ∧
    (extract_themes_and_topics ((fun _ => none) : Gen)
      "A long enough diary entry that would otherwise be analyzed."
      initState).1 = [] :=
  ⟨rfl, spec_C7_error_absorption.1 ((fun _ => none) : Gen)
    "A long enough diary entry that would otherwise be analyzed."
    initState rfl⟩

/-- C8 counterexample: the claim as frozen says every line beginning with a
numeric-dot list marker is kept (subject to the remainder filter), but the
code's `startswith(("1.", "2.", "3.", "4.", "5.")) or startswith("-")` test
drops a `6.` line: here the single response line begins with the
numeric-dot marker `6.`, passes the commentary filter, and its stripped
remainder ends with a question mark, yet the returned prompt list is
empty. -/
theorem spec_C8_prompt_marker_counterexample :
    pyStartsWith
      (pyStrip "6. What would be the most useful thing to test next?")
      "6." = true ∧
    hasSkipMarker (pyLower
      (pyStrip "6. What would be the most useful thing to test next?"))
      = false ∧
    pyEndsWith (pyStrip (pyDropWhile isMarkerChar
      (pyStrip "6. What would be the most useful thing to test next?")))
      "?" = true ∧
    (generate_reflection_prompts
      ((fun _ => some "6. What would be the most useful thing to test next?")
        : Gen)
      "This is a sufficiently long journal entry." none 3 false
      initState).1 = [] := by
  exact ⟨by decide, by decide, by decide, by decide⟩

/-- C8 (amended): prompt parsing keeps every line that begins with one of
the list markers `1.` through `5.` or a dash (after discarding
commentary/marker lines), strips the leading list-marker syntax, keeps the
remainder only if it ends with a question mark or exceeds 20 characters,
and returns at most `count` prompts: the returned list is exactly the
`filterMap` of the per-line filter over the scrubbed response's lines,
truncated to `count`. -/
theorem spec_C8_prompt_parsing (gen : Gen) (recent : String)
    (focus : Option String) (count : Nat) (sunday : Bool) (st : EngineState) :
    (generate_reflection_prompts gen recent focus count sunday st).1.length
      ≤ count ∧
    ∀ response, gen st.genCalls = some response →
      ¬ (pyStrip recent).length < 20 →
      (generate_reflection_prompts gen recent focus count sunday st).1 =
        ((pySplitOn '\n' (String.mk (stripThinkTokens
          (scrubPairs response.data)))).filterMap promptOf).take count := by
  constructor
  · unfold generate_reflection_prompts
    by_cases hC : (pyStrip recent).length < 20
    · simp [hC]
    · rw [if_neg hC]
      cases hG : gen st.genCalls with
      | none => simp
      | some raw =>
        show (((pySplitOn '\n' (String.mk (stripThinkTokens
          (scrubPairs raw.data)))).foldl promptStep []).take count).length
            ≤ count
        exact List.length_take_le _ _
  · intro response hG hC
    unfold generate_reflection_prompts
    rw [if_neg hC]
    simp only [hG, foldl_promptStep, List.nil_append]

/-- C8 witness: a single well-formed numbered question is parsed and the
loop output agrees with the declarative pipeline. -/
theorem spec_C8_prompt_parsing_witness :
    ((fun _ => some "1. Why?") : Gen) initState.genCalls = some "1. Why?" ∧
    ¬ (pyStrip "This is a sufficiently long journal entry.").length < 20 ∧
    (generate_reflection_prompts ((fun _ => some "1. Why?") : Gen)
      "This is a sufficiently long journal entry." none 3 false initState).1 =
      ((pySplitOn '\n' (String.mk (stripThinkTokens
        (scrubPairs ("1. Why?" : String).data)))).filterMap promptOf).take 3 :=
  ⟨rfl, by decide,
    (spec_C8_prompt_parsing ((fun _ => some "1. Why?") : Gen)
      "This is a sufficiently long journal entry." none 3 false
      initState).2 "1. Why?" rfl (by decide)⟩

/-- C9 (amended): changing the content's length always changes the cache
fingerprint, and changing a character within the first 100 characters
changes the fingerprint whenever the hash of the 100-character prefix
changes (the prefix hash may collide); in either case a subsequent
`get_themes_cached` call with the edited content misses the cache and
triggers a fresh extraction (two extractor invocations in total from a
fresh state). -/
theorem spec_C9_cache_edit_sensitivity (gen : Gen) (pyHash : String → Int)
    (c1 c2 s : String)
    (h : c1.length ≠ c2.length ∨
      pyHash (pyTake 100 c1) ≠ pyHash (pyTake 100 c2)) :
    cacheKey pyHash c1 s ≠ cacheKey pyHash c2 s ∧
    (get_themes_cached gen pyHash c2 s
      (get_themes_cached gen pyHash c1 s initState).2).2.extractCalls = 2 := by
  have hkey : cacheKey pyHash c1 s ≠ cacheKey pyHash c2 s := by
    intro he
    obtain ⟨hl, hh⟩ := cacheKey_components pyHash c1 c2 s he
    rcases h with h | h
    · exact h hl
    · exact h hh
  refine ⟨hkey, ?_⟩
  have h1 : initState.theme_cache.lookup (cacheKey pyHash c1 s) = none := rfl
  simp only [get_themes_cached, h1]
  have hc1 := (extract_effects gen c1 initState).1
  have h2 : (((cacheKey pyHash c1 s,
      (extract_themes_and_topics gen c1 initState).1) ::
      (extract_themes_and_topics gen c1 initState).2.theme_cache).lookup
        (cacheKey pyHash c2 s)) = none := by
    rw [hc1]
    have hbeq : ((cacheKey pyHash c2 s) == (cacheKey pyHash c1 s)) = false := by
      simpa using fun hh2 => hkey hh2.symm
    simp only [List.lookup, hbeq]
  simp only [get_themes_cached, h2]
  have e2 := (extract_effects gen c2
    { (extract_themes_and_topics gen c1 initState).2 with
      theme_cache := (cacheKey pyHash c1 s,
        (extract_themes_and_topics gen c1 initState).1) ::
          (extract_themes_and_topics gen c1 initState).2.theme_cache }).2.1
  have e1 := (extract_effects gen c1 initState).2.1
  show (extract_themes_and_topics gen c2
    { (extract_themes_and_topics gen c1 initState).2 with
      theme_cache := (cacheKey pyHash c1 s,
        (extract_themes_and_topics gen c1 initState).1) ::
          (extract_themes_and_topics gen c1 initState).2.theme_cache
      }).2.extractCalls = 2
  rw [e2]
  show (extract_themes_and_topics gen c1 initState).2.extractCalls + 1 = 2
  rw [e1]
  rfl

/-- C9 witness: a length change forces a different fingerprint and a second
extraction. -/
theorem spec_C9_cache_edit_sensitivity_witness :
    ("a" : String).length ≠ ("ab" : String).length ∧
    cacheKey (fun _ => 0) "a" "2024-01-01"
      ≠ cacheKey (fun _ => 0) "ab" "2024-01-01" ∧
    (get_themes_cached ((fun _ => none) : Gen) (fun _ => 0) "ab" "2024-01-01"
      (get_themes_cached ((fun _ => none) : Gen) (fun _ => 0) "a" "2024-01-01"
        initState).2).2.extractCalls = 2 :=
  ⟨by decide,
    (spec_C9_cache_edit_sensitivity ((fun _ => none) : Gen) (fun _ => 0)
      "a" "ab" "2024-01-01" (Or.inl (by decide))).1,
    (spec_C9_cache_edit_sensitivity ((fun _ => none) : Gen) (fun _ => 0)
      "a" "ab" "2024-01-01" (Or.inl (by decide))).2⟩

/-- C9 counterexample: the claim as frozen asserts that changing any single
character within the first 100 characters produces a different fingerprint.
The fingerprint only sees the content prefix through the (per-process,
collision-prone) `hash` function, modelled as the parameter `pyHash`; under
a hash parameter with a collision on the two prefixes — exhibited here with
a constant hash, collisions being unavoidable by pigeonhole for the real
64-bit string hash as well — two contents of equal length differing in
their first character produce the identical fingerprint, and the second
`get_themes_cached` call returns the cached theme list without any fresh
extraction. -/
theorem spec_C9_cache_edit_counterexample :
    ("aaaaaaaaaaaaaaaaaaaaaaaa" : String) ≠ "baaaaaaaaaaaaaaaaaaaaaaa" ∧
    ("aaaaaaaaaaaaaaaaaaaaaaaa" : String).length
      = ("baaaaaaaaaaaaaaaaaaaaaaa" : String).length ∧
    cacheKey (fun _ => 0) "aaaaaaaaaaaaaaaaaaaaaaaa" "2024-01-01"
      = cacheKey (fun _ => 0) "baaaaaaaaaaaaaaaaaaaaaaa" "2024-01-01" ∧
    (get_themes_cached ((fun _ => some "focus, work") : Gen) (fun _ => 0)
      "baaaaaaaaaaaaaaaaaaaaaaa" "2024-01-01"
      (get_themes_cached ((fun _ => some "focus, work") : Gen) (fun _ => 0)
        "aaaaaaaaaaaaaaaaaaaaaaaa" "2024-01-01" initState).2).2.extractCalls
      = 1 ∧
    (get_themes_cached ((fun _ => some "focus, work") : Gen) (fun _ => 0)
      "baaaaaaaaaaaaaaaaaaaaaaa" "2024-01-01"
      (get_themes_cached ((fun _ => some "focus, work") : Gen) (fun _ => 0)
        "aaaaaaaaaaaaaaaaaaaaaaaa" "2024-01-01" initState).2).1
      = (get_themes_cached ((fun _ => some "focus, work") : Gen) (fun _ => 0)
        "aaaaaaaaaaaaaaaaaaaaaaaa" "2024-01-01" initState).1 := by
  exact ⟨by decide, by decide, by decide, by decide, by decide⟩
